import Mathlib

/-!
# Shallow embedding of the clearpath-training-starter cache subsystem

This file embeds, in Lean, the cache/refresh core of the repository:

* `src/lib/database.ts` — the SQLite-backed Record Store and Cache
  Metadata Store (`dbOperations.upsertLaunches`, `getCachedLaunches`,
  `isCacheValid`, `updateCacheMetadata`, `convertToApiFormat`);
* `src/app/api/launches/route.ts` — the GET (read-through cache) and
  POST (forced refresh) orchestrator handlers;
* the histogram endpoint (weekly bucketing over the cached records).

Modelling conventions:

* The `launches` SQLite table is a `List LaunchRecord` in rowid order.
  `INSERT OR REPLACE` deletes the old row and inserts a fresh one with a
  new rowid, so a replace removes the old entry and appends at the end.
* `SELECT * FROM launches ORDER BY net ASC LIMIT ?` is modelled as a
  stable sort by the `net` TEXT column (binary collation, i.e. the
  lexicographic `String` order) followed by `take`.
* Timestamps (`Date.now()`) are `Int` milliseconds, passed explicitly.
* JavaScript `x || d` on strings/numbers is modelled faithfully,
  including the falsiness of `""` and `0`.
* The upstream `fetch` is an explicit parameter `Option (List ApiLaunch)`:
  `none` collapses network errors, non-2xx statuses and malformed
  response shapes, exactly as the route collapses all three into the
  same `catch` block.  Storage write failures are injected through the
  `upsertFails` / `metaWriteFails` flags: a failed batch upsert rolls the
  whole transaction back (store unchanged) and throws; a failed metadata
  write throws after the batch transaction already committed.
* `new Date(s).getTime()` parsing in the histogram endpoint is an
  uninterpreted total function `toTime : String → Int` (the claim under
  audit assumes parseable timestamps); calendar-day stepping
  `setDate(getDate() + 7)` is `+ 7·86400000` ms (UTC, no DST shift).
  The locale-formatted display `label` of a bucket is not modelled.
-/

namespace ClearPath

/-- JavaScript `x || d` for an optional string: `undefined` and `""` are
falsy and yield the default. -/
def jsOrStr (x : Option String) (d : String) : String :=
  match x with
  | none => d
  | some s => if s = "" then d else s

/-- JavaScript `x || d` for an optional integer: `undefined` and `0` are
falsy and yield the default. -/
def jsOrInt (x : Option Int) (d : Int) : Int :=
  match x with
  | none => d
  | some n => if n = 0 then d else n

/-- JavaScript `x || null` for an optional string stored into a nullable
column: `""` collapses to `null`. -/
def jsOrNullStr (x : Option String) : Option String :=
  match x with
  | none => none
  | some s => if s = "" then none else some s

/-- JavaScript `x || null` for an optional integer stored into a nullable
column: `0` collapses to `null`. -/
def jsOrNullInt (x : Option Int) : Option Int :=
  match x with
  | none => none
  | some n => if n = 0 then none else some n

/-- `status` substructure of an upstream launch (`ApiLaunch` in
`database.ts`). -/
structure ApiStatus where
  id : Int
  name : String
  «abbrev» : String
  description : String
deriving DecidableEq

/-- The `type` field of a provider or mission: `string | {id, name}` in
the TypeScript source. -/
inductive StrOrObj where
  | str (s : String)
  | obj (id : Int) (name : String)
deriving DecidableEq

/-- `launch_service_provider` substructure. -/
structure ApiProvider where
  id : Int
  name : String
  «abbrev» : String
  type : StrOrObj
deriving DecidableEq

/-- `rocket.configuration` substructure. -/
structure ApiRocketConfig where
  id : Int
  name : String
  full_name : String
  variant : String
deriving DecidableEq

/-- `rocket` substructure. -/
structure ApiRocket where
  id : Int
  configuration : Option ApiRocketConfig
deriving DecidableEq

/-- `mission` substructure. -/
structure ApiMission where
  id : Int
  name : String
  description : Option String
  type : StrOrObj
deriving DecidableEq

/-- `image` substructure. -/
structure ApiImage where
  id : Int
  name : String
  image_url : String
  thumbnail_url : String
  credit : String
deriving DecidableEq

/-- The `ApiLaunch` interface of `database.ts`: the shape of one record as
fetched from the upstream API (and as returned by `convertToApiFormat`). -/
structure ApiLaunch where
  id : String
  name : String
  net : String
  window_start : Option String
  window_end : Option String
  status : Option ApiStatus
  launch_service_provider : Option ApiProvider
  rocket : Option ApiRocket
  mission : Option ApiMission
  image : Option ApiImage
deriving DecidableEq

/-- One row of the `launches` SQLite table (`LaunchRecord` in
`database.ts`). -/
structure LaunchRecord where
  id : String
  name : String
  net : String
  window_start : String
  window_end : String
  status_id : Int
  status_name : String
  status_abbrev : String
  status_description : String
  lsp_id : Int
  lsp_name : String
  lsp_abbrev : String
  lsp_type : String
  rocket_id : Int
  rocket_config_id : Int
  rocket_config_name : String
  rocket_config_full_name : String
  rocket_config_variant : String
  mission_id : Int
  mission_name : String
  mission_description : Option String
  mission_type : String
  image_id : Option Int
  image_name : Option String
  image_url : Option String
  image_thumbnail_url : Option String
  image_credit : Option String
  created_at : Int
  updated_at : Int
deriving DecidableEq

/-- The `typeof x === 'string' ? x : x?.type?.name || 'Unknown'` pattern
used for both the provider `type` and mission `type` columns. -/
def strOrObjName (x : Option StrOrObj) : String :=
  match x with
  | some (.str s) => s
  | some (.obj _ n) => if n = "" then "Unknown" else n
  | none => "Unknown"

/-- The column values bound by `stmt.run` in
`dbOperations.upsertLaunches` for one upstream launch, at write time
`now` (`Date.now()`). -/
def toRow (now : Int) (l : ApiLaunch) : LaunchRecord where
  id := l.id
  name := l.name
  net := l.net
  window_start := jsOrStr l.window_start l.net
  window_end := jsOrStr l.window_end l.net
  status_id := jsOrInt (l.status.map (·.id)) 0
  status_name := jsOrStr (l.status.map (·.name)) "Unknown"
  status_abbrev := jsOrStr (l.status.map (·.«abbrev»)) "UNK"
  status_description := jsOrStr (l.status.map (·.description)) "Unknown"
  lsp_id := jsOrInt (l.launch_service_provider.map (·.id)) 0
  lsp_name := jsOrStr (l.launch_service_provider.map (·.name)) "Unknown"
  lsp_abbrev := jsOrStr (l.launch_service_provider.map (·.«abbrev»)) "UNK"
  lsp_type := strOrObjName (l.launch_service_provider.map (·.type))
  rocket_id := jsOrInt (l.rocket.map (·.id)) 0
  rocket_config_id := jsOrInt (l.rocket.bind (·.configuration) |>.map (·.id)) 0
  rocket_config_name := jsOrStr (l.rocket.bind (·.configuration) |>.map (·.name)) "Unknown"
  rocket_config_full_name := jsOrStr (l.rocket.bind (·.configuration) |>.map (·.full_name)) "Unknown"
  rocket_config_variant := jsOrStr (l.rocket.bind (·.configuration) |>.map (·.variant)) ""
  mission_id := jsOrInt (l.mission.map (·.id)) 0
  mission_name := jsOrStr (l.mission.map (·.name)) "Unknown"
  mission_description := jsOrNullStr (l.mission.bind (·.description))
  mission_type := strOrObjName (l.mission.map (·.type))
  image_id := jsOrNullInt (l.image.map (·.id))
  image_name := jsOrNullStr (l.image.map (·.name))
  image_url := jsOrNullStr (l.image.map (·.image_url))
  image_thumbnail_url := jsOrNullStr (l.image.map (·.thumbnail_url))
  image_credit := jsOrNullStr (l.image.map (·.credit))
  created_at := now
  updated_at := now

/-- `dbOperations.upsertLaunches`: one `INSERT OR REPLACE` per batch
element inside a single transaction.  A replace drops the old row for the
same primary key and appends the fresh row (new rowid). -/
def upsertLaunches (now : Int) (launches : List ApiLaunch)
    (store : List LaunchRecord) : List LaunchRecord :=
  launches.foldl
    (fun st l => st.filter (fun r => decide (r.id ≠ l.id)) ++ [toRow now l])
    store

/-- Stable insertion of `x` into a list already sorted by `key`:
`x` goes in front of the first element whose key is not smaller. -/
def insertByKey {α β : Type} [LinearOrder β] (key : α → β) (x : α) :
    List α → List α
  | [] => [x]
  | y :: ys =>
      if key x ≤ key y then x :: y :: ys else y :: insertByKey key x ys

/-- Stable insertion sort by `key`. -/
def sortByKey {α β : Type} [LinearOrder β] (key : α → β) :
    List α → List α
  | [] => []
  | x :: xs => insertByKey key x (sortByKey key xs)

/-- `dbOperations.getCachedLaunches`: `SELECT * FROM launches ORDER BY
net ASC LIMIT ?`.  `ORDER BY` on the TEXT column `net` (binary collation)
is a stable sort by the lexicographic string order over the rowid-ordered
table; `LIMIT` is `take`. -/
def getCachedLaunches (store : List LaunchRecord) (limit : Nat := 100) :
    List LaunchRecord :=
  (sortByKey (·.net) store).take limit

/-- One row of the `cache_meta` SQLite table. -/
structure CacheMetaRow where
  key : String
  last_updated : Int
  expires_at : Int
deriving DecidableEq

/-- The `cache_meta` table, in rowid order (primary key `key`). -/
abbrev MetaStore : Type := List CacheMetaRow

/-- `SELECT expires_at FROM cache_meta WHERE key = ?`. -/
def findMeta (meta : MetaStore) (cacheKey : String) : Option CacheMetaRow :=
  List.find? (fun r => decide (r.key = cacheKey)) meta

/-- `dbOperations.isCacheValid`: a row for the key must exist and the
current time must be strictly below its stored `expires_at`.  The
`ttlMinutes` argument is accepted (as in the source) but never used. -/
def isCacheValid (meta : MetaStore) (cacheKey : String)
    (ttlMinutes : Int := 30) (now : Int := 0) : Bool :=
  match findMeta meta cacheKey with
  | none => false
  | some result => decide (now < result.expires_at)

/-- `dbOperations.updateCacheMetadata`: `INSERT OR REPLACE` of
`(key, now, now + ttlMinutes·60·1000)`. -/
def updateCacheMetadata (meta : MetaStore) (cacheKey : String)
    (ttlMinutes : Int := 30) (now : Int := 0) : MetaStore :=
  List.filter (fun r => decide (r.key ≠ cacheKey)) meta ++
    [⟨cacheKey, now, now + ttlMinutes * 60 * 1000⟩]

/-- `dbOperations.convertToApiFormat` applied to one row. -/
def rowToApi (record : LaunchRecord) : ApiLaunch where
  id := record.id
  name := record.name
  net := record.net
  window_start := some (jsOrStr (some record.window_start) record.net)
  window_end := some (jsOrStr (some record.window_end) record.net)
  status := some ⟨record.status_id, record.status_name,
    record.status_abbrev, record.status_description⟩
  launch_service_provider := some ⟨record.lsp_id, record.lsp_name,
    record.lsp_abbrev, .str record.lsp_type⟩
  rocket := some ⟨record.rocket_id, some ⟨record.rocket_config_id,
    record.rocket_config_name, record.rocket_config_full_name,
    record.rocket_config_variant⟩⟩
  mission := some ⟨record.mission_id, record.mission_name,
    jsOrNullStr record.mission_description, .str record.mission_type⟩
  image :=
    match record.image_id with
    | none => none
    | some n =>
        if n = 0 then none
        else some ⟨n, (record.image_name).getD "",
          (record.image_url).getD "", (record.image_thumbnail_url).getD "",
          (record.image_credit).getD ""⟩

/-- `dbOperations.convertToApiFormat`. -/
def convertToApiFormat (records : List LaunchRecord) : List ApiLaunch :=
  records.map rowToApi

/-- `dbOperations.cleanupOldLaunches`: `DELETE FROM launches WHERE
created_at < now − daysOld·24·60·60·1000`; returns the new store and the
number of rows removed. -/
def cleanupOldLaunches (now : Int) (store : List LaunchRecord)
    (daysOld : Int := 7) : List LaunchRecord × Nat :=
  let cutoffTime := now - daysOld * 24 * 60 * 60 * 1000
  let kept := store.filter (fun r => decide (¬ r.created_at < cutoffTime))
  (kept, store.length - kept.length)

/-! ## The orchestrator: `src/app/api/launches/route.ts` -/

/-- `const CACHE_KEY = 'upcoming_launches'`. -/
def CACHE_KEY : String := "upcoming_launches"

/-- `const CACHE_TTL_MINUTES = 30`. -/
def CACHE_TTL_MINUTES : Int := 30

/-- `const MAX_API_LIMIT = 100`. -/
def MAX_API_LIMIT : Nat := 100

/-- The persisted state of the system: the two SQLite tables. -/
structure DbState where
  launches : List LaunchRecord
  meta : MetaStore
deriving DecidableEq

/-- The JSON envelope returned by the route handlers: either a 200
response (`ok`) or the 500 error shape (`err`).  `next` / `previous` hold
the pagination URLs (`null` when absent); `source` and `warning` are the
`cache_info.source` and `cache_info.warning` fields. -/
inductive ApiResponse where
  | ok (count : Nat) (next : Option String) (previous : Option String)
      (results : List ApiLaunch) (cached : Bool) (source : String)
      (warning : Option String)
  | err (message : String)
deriving DecidableEq

/-- The `next` pagination URL built when `offset + limit < totalCount`. -/
def nextUrlOf (limit offset : Nat) : String :=
  s!"/api/launches?limit={limit}&offset={offset + limit}"

/-- The `previous` pagination URL built when `offset > 0`
(`Math.max(0, offset - limit)` is truncated subtraction on `Nat`). -/
def prevUrlOf (limit offset : Nat) : String :=
  s!"/api/launches?limit={limit}&offset={offset - limit}"

/-- `if (hasNext) nextUrl else null`. -/
def nextField (limit offset totalCount : Nat) : Option String :=
  if offset + limit < totalCount then some (nextUrlOf limit offset) else none

/-- `if (hasPrevious) previousUrl else null`. -/
def prevField (limit offset : Nat) : Option String :=
  if 0 < offset then some (prevUrlOf limit offset) else none

/-- JavaScript `arr.slice(offset, offset + limit)` for non-negative
`offset`/`limit`. -/
def sliceWindow {α : Type} (offset limit : Nat) (l : List α) : List α :=
  (l.drop offset).take limit

/-- The 200 envelope of the cache-hit branch of `GET` (and, with the
store read at fallback time, of the stale-cache branch: both read
`getCachedLaunches(MAX_API_LIMIT)`, window in-process, and convert). -/
def cachePageResp (store : List LaunchRecord) (limit offset : Nat)
    (source : String) (warning : Option String) : ApiResponse :=
  let allCachedRecords := getCachedLaunches store MAX_API_LIMIT
  let totalCount := allCachedRecords.length
  .ok totalCount (nextField limit offset totalCount) (prevField limit offset)
    (convertToApiFormat (sliceWindow offset limit allCachedRecords))
    true source warning

/-- The 200 envelope built from a freshly fetched batch (the fresh-data
branch of `GET`, and the success branch of `POST`): the batch itself is
windowed, `count` is the full batch size, `cached` is `false`. -/
def freshResp (results : List ApiLaunch) (limit offset : Nat)
    (source : String) : ApiResponse :=
  let totalCount := results.length
  .ok totalCount (nextField limit offset totalCount) (prevField limit offset)
    (sliceWindow offset limit results) false source none

/-- The `catch` block of `GET`: re-read the store; if it is non-empty,
serve it as `stale_cache` with a warning; otherwise the terminal 500
`'Failed to fetch launch data'` error.  The state is not written. -/
def staleFallback (st : DbState) (limit offset : Nat) : ApiResponse × DbState :=
  let allCachedRecords := getCachedLaunches st.launches MAX_API_LIMIT
  if 0 < allCachedRecords.length then
    (cachePageResp st.launches limit offset "stale_cache"
      (some "External API unavailable, returning stale cache data"), st)
  else
    (.err "Failed to fetch launch data", st)

/-- The `GET` handler of `route.ts`, as a pure state transformer.

`fetched` is the outcome of the single upstream `fetch`: `none` for a
network error, a non-2xx status, or a body without a `results` array
(all of which `throw` into the same `catch`); `some results` for a
well-shaped 2xx body.  `upsertFails` injects a batch-write failure
(the transaction rolls back and throws); `metaWriteFails` injects a
metadata-write failure (throws after the batch committed).  Both throws
land in the same `catch` as an upstream failure. -/
def handleGET (st : DbState) (now : Int) (limit offset : Nat)
    (fetched : Option (List ApiLaunch))
    (upsertFails metaWriteFails : Bool) : ApiResponse × DbState :=
  if isCacheValid st.meta CACHE_KEY CACHE_TTL_MINUTES now then
    (cachePageResp st.launches limit offset "cache" none, st)
  else
    match fetched with
    | none => staleFallback st limit offset
    | some results =>
        if 0 < results.length then
          if upsertFails then
            staleFallback st limit offset
          else
            let st1 : DbState :=
              { st with launches := upsertLaunches now results st.launches }
            if metaWriteFails then
              staleFallback st1 limit offset
            else
              let st2 : DbState :=
                { st1 with
                  meta := updateCacheMetadata st1.meta CACHE_KEY
                    CACHE_TTL_MINUTES now }
              (freshResp results limit offset "api", st2)
        else
          (freshResp results limit offset "api", st)

/-- The `POST` (manual refresh) handler of `route.ts`.  Upstream is
always called, without consulting `isCacheValid`; success handling
matches the fresh-data branch of `GET` with source `manual_refresh`; any
failure (fetch or write) lands in the `catch`, which returns the 500
`'Failed to refresh cache'` error — there is no stale-cache fallback. -/
def handlePOST (st : DbState) (now : Int) (limit offset : Nat)
    (fetched : Option (List ApiLaunch))
    (upsertFails metaWriteFails : Bool) : ApiResponse × DbState :=
  match fetched with
  | none => (.err "Failed to refresh cache", st)
  | some results =>
      if 0 < results.length then
        if upsertFails then
          (.err "Failed to refresh cache", st)
        else
          let st1 : DbState :=
            { st with launches := upsertLaunches now results st.launches }
          if metaWriteFails then
            (.err "Failed to refresh cache", st1)
          else
            let st2 : DbState :=
              { st1 with
                meta := updateCacheMetadata st1.meta CACHE_KEY
                  CACHE_TTL_MINUTES now }
            (freshResp results limit offset "manual_refresh", st2)
      else
        (freshResp results limit offset "manual_refresh", st)

/-! ## The histogram endpoint (weekly bucketing) -/

/-- Seven days in milliseconds: `setDate(getDate() + 7)` under UTC. -/
def WEEK_MS : Int := 7 * 24 * 60 * 60 * 1000

/-- One `HistogramBucket` (the locale-formatted `label` is not
modelled); `startDate` / `endDate` are epoch milliseconds. -/
structure HistogramBucket where
  startDate : Int
  endDate : Int
  count : Nat
  launchIds : List String
deriving DecidableEq

/-- The bucket start times generated by the
`while (currentDate <= lastDate)` loop: `cur, cur + 7d, …` for as long as
the start does not exceed `last`. -/
def bucketStarts (cur last : Int) : List Int :=
  if cur ≤ last then cur :: bucketStarts (cur + WEEK_MS) last else []
termination_by (last + WEEK_MS - cur).toNat
decreasing_by
  have hW : (0 : Int) < WEEK_MS := by decide
  omega

/-- The histogram bucket list computed by the histogram `GET` over a
launch list, with `toTime` standing for `new Date(s).getTime()` on
parseable timestamps.  Mirrors the endpoint: sort by parsed `net`,
bucket from the earliest to the latest in 7-day half-open windows, and
fill each bucket by filtering the sorted list. -/
def histogramBuckets (toTime : String → Int) (launches : List ApiLaunch) :
    List HistogramBucket :=
  match sortByKey (fun l => toTime l.net) launches with
  | [] => []
  | x :: xs =>
      let sortedLaunches := x :: xs
      let firstDate := toTime x.net
      let lastDate := toTime ((x :: xs).getLast (by simp)).net
      (bucketStarts firstDate lastDate).map fun s =>
        let launchesInBucket := sortedLaunches.filter fun l =>
          decide (s ≤ toTime l.net) && decide (toTime l.net < s + WEEK_MS)
        ⟨s, s + WEEK_MS, launchesInBucket.length,
          launchesInBucket.map (·.id)⟩

/-- The histogram endpoint's response body: the buckets over the full
cached record set (`getCachedLaunches(100)` then `convertToApiFormat`),
and `total_launches` = number of launches consulted. -/
def histogramGET (toTime : String → Int) (st : DbState) :
    List HistogramBucket × Nat :=
  let launches := convertToApiFormat (getCachedLaunches st.launches 100)
  (histogramBuckets toTime launches, launches.length)

/-! ## Lemmas about the stable sort -/

theorem insertByKey_perm {α β : Type} [LinearOrder β] (key : α → β)
    (x : α) (l : List α) : List.Perm (insertByKey key x l) (x :: l) := by
  induction l with
  | nil => rfl
  | cons y ys ih =>
      simp only [insertByKey]
      split
      · exact List.Perm.refl _
      · exact ((ih.cons y).trans (List.Perm.swap x y ys))

theorem sortByKey_perm {α β : Type} [LinearOrder β] (key : α → β)
    (l : List α) : List.Perm (sortByKey key l) l := by
  induction l with
  | nil => rfl
  | cons x xs ih =>
      exact (insertByKey_perm key x (sortByKey key xs)).trans (ih.cons x)

theorem sortByKey_length {α β : Type} [LinearOrder β] (key : α → β)
    (l : List α) : (sortByKey key l).length = l.length :=
  (sortByKey_perm key l).length_eq

theorem mem_sortByKey {α β : Type} [LinearOrder β] (key : α → β)
    (l : List α) (x : α) : x ∈ sortByKey key l ↔ x ∈ l :=
  (sortByKey_perm key l).mem_iff

theorem insertByKey_sorted {α β : Type} [LinearOrder β] (key : α → β)
    (x : α) (l : List α)
    (h : List.Pairwise (fun a b => key a ≤ key b) l) :
    List.Pairwise (fun a b => key a ≤ key b) (insertByKey key x l) := by
  induction l with
  | nil => simp [insertByKey]
  | cons y ys ih =>
      simp only [insertByKey]
      rcases List.pairwise_cons.mp h with ⟨hy, hys⟩
      split
      · rename_i hxy
        refine List.Pairwise.cons ?_ (List.Pairwise.cons hy hys)
        intro a ha
        rcases List.mem_cons.mp ha with rfl | ha
        · exact hxy
        · exact le_trans hxy (hy a ha)
      · rename_i hxy
        refine List.Pairwise.cons ?_ (ih hys)
        intro a ha
        rcases List.mem_cons.mp ((insertByKey_perm key x ys).mem_iff.mp ha)
          with rfl | ha
        · exact le_of_not_le hxy
        · exact hy a ha

theorem sortByKey_sorted {α β : Type} [LinearOrder β] (key : α → β)
    (l : List α) :
    List.Pairwise (fun a b => key a ≤ key b) (sortByKey key l) := by
  induction l with
  | nil => simp [sortByKey]
  | cons x xs ih => exact insertByKey_sorted key x _ ih

theorem filter_insertByKey {α β : Type} [LinearOrder β] [DecidableEq β]
    (key : α → β) (x : α) (l : List α) (v : β) :
    (insertByKey key x l).filter (fun a => decide (key a = v)) =
      (if key x = v then [x] else []) ++
        l.filter (fun a => decide (key a = v)) := by
  induction l with
  | nil => by_cases hx : key x = v <;> simp [insertByKey, hx]
  | cons y ys ih =>
      simp only [insertByKey]
      split
      · rename_i hxy
        by_cases hx : key x = v <;> simp [List.filter_cons, hx]
      · rename_i hxy
        by_cases hy : key y = v
        · have hx : ¬ key x = v := by
            intro hxv
            exact hxy (le_of_eq (hxv.trans hy.symm))
          simp [List.filter_cons, hy, hx] at ih ⊢
          exact ih
        · simp [List.filter_cons, hy] at ih ⊢
          exact ih

/-- The sort is stable: the records with any fixed key value come out in
exactly the order they occupy in the input. -/
theorem sortByKey_filter_key {α β : Type} [LinearOrder β] [DecidableEq β]
    (key : α → β) (l : List α) (v : β) :
    (sortByKey key l).filter (fun a => decide (key a = v)) =
      l.filter (fun a => decide (key a = v)) := by
  induction l with
  | nil => rfl
  | cons x xs ih =>
      simp only [sortByKey]
      rw [filter_insertByKey]
      by_cases hx : key x = v <;> simp [List.filter_cons, hx, ih]

theorem sorted_head_le {α β : Type} [LinearOrder β] {key : α → β}
    {x : α} {xs : List α}
    (h : List.Pairwise (fun a b => key a ≤ key b) (x :: xs)) :
    ∀ y ∈ x :: xs, key x ≤ key y := by
  intro y hy
  rcases List.mem_cons.mp hy with rfl | hy
  · exact le_refl _
  · exact (List.pairwise_cons.mp h).1 y hy

theorem sorted_le_getLast {α β : Type} [LinearOrder β] {key : α → β} :
    ∀ (l : List α) (hne : l ≠ []),
      List.Pairwise (fun a b => key a ≤ key b) l →
      ∀ y ∈ l, key y ≤ key (l.getLast hne)
  | [], hne, _, _, _ => absurd rfl hne
  | [x], _, _, y, hy => by
      rcases List.mem_singleton.mp hy with rfl
      exact le_refl _
  | x :: x2 :: xs, _, h, y, hy => by
      have hlast : (x :: x2 :: xs).getLast (by simp) =
          (x2 :: xs).getLast (by simp) := by
        simp [List.getLast]
      rw [hlast]
      rcases List.mem_cons.mp hy with rfl | hy
      · exact (List.pairwise_cons.mp h).1 _
          (List.getLast_mem (l := x2 :: xs) (by simp))
      · exact sorted_le_getLast (x2 :: xs) (by simp)
          (List.pairwise_cons.mp h).2 y hy

/-! ## Lemmas about the batch upsert -/

/-- A stored row survives the upsert of `launches` iff its primary key
collides with none of the batch. -/
def keepRow (launches : List ApiLaunch) (r : LaunchRecord) : Bool :=
  launches.all (fun l => decide (r.id ≠ l.id))

/-- The upsert of a batch splits into the surviving old rows followed by
the rows the batch itself contributes (the replaced rows get fresh
rowids at the end of the table). -/
theorem upsertLaunches_eq_filter_append (now : Int) :
    ∀ (launches : List ApiLaunch) (store : List LaunchRecord),
      upsertLaunches now launches store =
        store.filter (keepRow launches) ++ upsertLaunches now launches []
  | [], store => by
      have hall : store.filter (keepRow []) = store := by
        apply List.filter_eq_self.mpr
        intro r _
        rfl
      simp [upsertLaunches, hall]
  | l :: ls, store => by
      have step : ∀ s : List LaunchRecord,
          upsertLaunches now (l :: ls) s =
            upsertLaunches now ls
              (s.filter (fun r => decide (r.id ≠ l.id)) ++ [toRow now l]) := by
        intro s; rfl
      rw [step store, step []]
      have e1 := upsertLaunches_eq_filter_append now ls
        (store.filter (fun r => decide (r.id ≠ l.id)) ++ [toRow now l])
      have e2 := upsertLaunches_eq_filter_append now ls
        (List.filter (fun r => decide (r.id ≠ l.id)) [] ++ [toRow now l])
      rw [e1, e2]
      simp only [List.filter_append, List.filter_filter, List.filter_nil,
        List.nil_append, List.append_assoc]
      congr 1
      apply List.filter_congr
      intro r _
      simp [keepRow, List.all_cons, Bool.and_comm]

/-- Every row the batch itself contributes carries the primary key of
some batch element. -/
theorem mem_upsertLaunches_nil (now : Int) :
    ∀ (launches : List ApiLaunch) (r : LaunchRecord),
      r ∈ upsertLaunches now launches [] → ∃ l ∈ launches, r.id = l.id
  | [], r, hr => by simp [upsertLaunches] at hr
  | l :: ls, r, hr => by
      have step : upsertLaunches now (l :: ls) [] =
          upsertLaunches now ls
            (List.filter (fun r => decide (r.id ≠ l.id)) [] ++ [toRow now l]) := rfl
      rw [step, upsertLaunches_eq_filter_append] at hr
      rcases List.mem_append.mp hr with hr | hr
      · have := List.mem_of_mem_filter hr
        simp only [List.filter_nil, List.nil_append,
          List.mem_singleton] at this
        exact ⟨l, List.mem_cons_self l ls, by subst this; rfl⟩
      · rcases mem_upsertLaunches_nil now ls r hr with ⟨l', hl', hid⟩
        exact ⟨l', List.mem_cons_of_mem l hl', hid⟩

/-- Re-upserting the same batch (at any later write time) rewrites
exactly the batch's rows: the store is as if only the second upsert had
happened. -/
theorem upsertLaunches_upsertLaunches (t1 t2 : Int)
    (launches : List ApiLaunch) (store : List LaunchRecord) :
    upsertLaunches t2 launches (upsertLaunches t1 launches store) =
      upsertLaunches t2 launches store := by
  rw [upsertLaunches_eq_filter_append t1 launches store,
    upsertLaunches_eq_filter_append t2 launches
      (store.filter (keepRow launches) ++ upsertLaunches t1 launches []),
    upsertLaunches_eq_filter_append t2 launches store]
  congr 1
  rw [List.filter_append, List.filter_filter]
  have h1 : List.filter (fun a => keepRow launches a && keepRow launches a)
      store = store.filter (keepRow launches) := by
    apply List.filter_congr
    intro r _
    exact Bool.and_self _
  have h2 : (upsertLaunches t1 launches []).filter (keepRow launches) = [] := by
    rw [List.filter_eq_nil_iff]
    intro r hr hk
    rcases mem_upsertLaunches_nil t1 launches r hr with ⟨l, hl, hid⟩
    have hk' : (launches.all fun l => decide (r.id ≠ l.id)) = true := hk
    have hne : r.id ≠ l.id := by simpa using List.all_eq_true.mp hk' l hl
    exact hne hid
  rw [h1, h2, List.append_nil]

/-- A stored row with the process-assigned write timestamps scrubbed:
the part of the Record Store state that does not depend on the wall
clock of the write. -/
def stripTimes (r : LaunchRecord) : LaunchRecord :=
  { r with created_at := 0, updated_at := 0 }

theorem stripTimes_toRow (t1 t2 : Int) (l : ApiLaunch) :
    stripTimes (toRow t1 l) = stripTimes (toRow t2 l) := rfl

theorem keepRow_toRow (launches : List ApiLaunch) (t1 t2 : Int)
    (l : ApiLaunch) :
    keepRow launches (toRow t1 l) = keepRow launches (toRow t2 l) := rfl

/-- The rows a batch contributes do not depend, once the write
timestamps are scrubbed, on the write time. -/
theorem map_stripTimes_upsertLaunches_nil (t1 t2 : Int) :
    ∀ launches : List ApiLaunch,
      (upsertLaunches t1 launches []).map stripTimes =
        (upsertLaunches t2 launches []).map stripTimes
  | [] => rfl
  | l :: ls => by
      have step : ∀ t : Int, upsertLaunches t (l :: ls) [] =
          upsertLaunches t ls
            (List.filter (fun r => decide (r.id ≠ l.id)) [] ++ [toRow t l]) := by
        intro t; rfl
      rw [step t1, step t2,
        upsertLaunches_eq_filter_append t1 ls,
        upsertLaunches_eq_filter_append t2 ls]
      simp only [List.filter_nil, List.nil_append, List.map_append]
      congr 1
      · rw [List.filter_singleton, List.filter_singleton,
          ← keepRow_toRow ls t1 t2 l]
        cases h : keepRow ls (toRow t1 l)
        · simp
        · simp [List.map_cons, stripTimes_toRow t1 t2 l]
      · exact map_stripTimes_upsertLaunches_nil t1 t2 ls

/-! ## Lemmas about the metadata store -/

theorem find?_filter_ne_append (k : String) (tail : MetaStore) :
    ∀ meta : MetaStore,
      List.find? (fun r => decide (r.key = k))
          (meta.filter (fun r => decide (r.key ≠ k)) ++ tail) =
        List.find? (fun r => decide (r.key = k)) tail
  | [] => rfl
  | r :: rs => by
      by_cases h : r.key = k
      · simp only [List.filter_cons, h]
        simpa using find?_filter_ne_append k tail rs
      · have hd : decide (r.key = k) = false := by simpa using h
        simp only [List.filter_cons]
        rw [if_pos (by simpa using h)]
        simp only [List.cons_append, List.find?_cons, hd]
        exact find?_filter_ne_append k tail rs

/-- After `updateCacheMetadata`, the row for the key is exactly
`(key, now, now + ttl·60·1000)`. -/
theorem findMeta_updateCacheMetadata (meta : MetaStore) (k : String)
    (ttl now : Int) :
    findMeta (updateCacheMetadata meta k ttl now) k =
      some ⟨k, now, now + ttl * 60 * 1000⟩ := by
  unfold findMeta updateCacheMetadata
  rw [find?_filter_ne_append]
  simp [List.find?_cons]

/-! ## Claim theorems: the metadata validity check (C1) -/

/-- C1: `isValid(key, ttl)` returns true iff a `cache_meta` row for the
key exists and the current time is strictly below its stored
`expires_at`; it returns true immediately after `touch(key, ttl)` with
positive `ttl`; it returns false once the current time reaches the
stored `expires_at`; and its value never depends on the `ttl` argument
passed at check time. -/
theorem isCacheValid_spec (meta : MetaStore) (cacheKey : String)
    (ttl now : Int) :
    (isCacheValid meta cacheKey ttl now = true ↔
      ∃ r, findMeta meta cacheKey = some r ∧ now < r.expires_at)
    ∧ (∀ ttlW now2 : Int, 0 < ttlW →
        isCacheValid (updateCacheMetadata meta cacheKey ttlW now2)
          cacheKey ttl now2 = true)
    ∧ (∀ r, findMeta meta cacheKey = some r → r.expires_at ≤ now →
        isCacheValid meta cacheKey ttl now = false)
    ∧ (∀ ttl2 : Int,
        isCacheValid meta cacheKey ttl now =
          isCacheValid meta cacheKey ttl2 now) := by
  refine ⟨?_, ?_, ?_, ?_⟩
  · unfold isCacheValid
    cases h : findMeta meta cacheKey with
    | none => simp
    | some r => simp [h]
  · intro ttlW now2 hpos
    unfold isCacheValid
    rw [findMeta_updateCacheMetadata]
    simp only [decide_eq_true_eq]
    omega
  · intro r hr hle
    unfold isCacheValid
    rw [hr]
    simp only [decide_eq_false_iff_not, not_lt]
    exact hle
  · intro ttl2
    unfold isCacheValid
    cases findMeta meta cacheKey <;> rfl

/-- C1 witness: after touching an empty metadata store at time 1000 with
TTL 30, the cache is valid at time 1000 whatever TTL the check passes;
a stored row with `expires_at = 50` is invalid at time 50. -/
theorem isCacheValid_spec_witness :
    isCacheValid (updateCacheMetadata [] "upcoming_launches" 30 1000)
        "upcoming_launches" 77 1000 = true
    ∧ isCacheValid [⟨"upcoming_launches", 0, 50⟩] "upcoming_launches"
        30 50 = false :=
  ⟨(isCacheValid_spec [] "upcoming_launches" 77 1000).2.1 30 1000
      (by decide),
   (isCacheValid_spec [⟨"upcoming_launches", 0, 50⟩] "upcoming_launches"
        30 50).2.2.1 ⟨"upcoming_launches", 0, 50⟩ (by decide) (by decide)⟩

/-! ## Claim theorems: upsert idempotence (C8) -/

/-- C8: applying the same batch twice leaves the Record Store in the
same observable state as applying it once — literally the same state
when the second write happens at the same wall-clock instant, and the
same state up to the process-assigned write timestamps when it happens
later. -/
theorem upsertLaunches_idempotent (now : Int) (batch : List ApiLaunch)
    (store : List LaunchRecord) :
    upsertLaunches now batch (upsertLaunches now batch store) =
      upsertLaunches now batch store
    ∧ ∀ now2 : Int,
        (upsertLaunches now2 batch
            (upsertLaunches now batch store)).map stripTimes =
          (upsertLaunches now batch store).map stripTimes := by
  refine ⟨upsertLaunches_upsertLaunches now now batch store, ?_⟩
  intro now2
  rw [upsertLaunches_upsertLaunches now now2 batch store,
    upsertLaunches_eq_filter_append now2 batch store,
    upsertLaunches_eq_filter_append now batch store,
    List.map_append, List.map_append,
    map_stripTimes_upsertLaunches_nil now2 now batch]

/-! ## Claim theorems: ordered bounded listing (C9) -/

/-- C9: `listOrdered(max)` (i.e. `getCachedLaunches`) returns at most
`max` records, in non-decreasing order of the `net` ordering field, and
ties between equal `net` values come out in the store's own (rowid,
i.e. insertion-identity) order: the equal-`net` records of the output
are an initial segment of the store's equal-`net` records. -/
theorem getCachedLaunches_ordered (store : List LaunchRecord)
    (max : Nat) :
    (getCachedLaunches store max).length ≤ max
    ∧ List.Pairwise (fun a b : LaunchRecord => a.net ≤ b.net)
        (getCachedLaunches store max)
    ∧ ∀ v : String, ∃ rest,
        store.filter (fun r => decide (r.net = v)) =
          (getCachedLaunches store max).filter
              (fun r => decide (r.net = v)) ++ rest := by
  refine ⟨List.length_take_le _ _, ?_, ?_⟩
  · exact List.Pairwise.sublist (List.take_sublist _ _)
      (sortByKey_sorted (fun r : LaunchRecord => r.net) store)
  · intro v
    refine ⟨((sortByKey (fun r : LaunchRecord => r.net) store).drop
      max).filter (fun r => decide (r.net = v)), ?_⟩
    have hst : (sortByKey (fun r : LaunchRecord => r.net) store).filter
          (fun r => decide (r.net = v)) =
        store.filter (fun r => decide (r.net = v)) :=
      sortByKey_filter_key _ store v
    rw [← hst]
    unfold getCachedLaunches
    rw [← List.filter_append, List.take_append_drop]

/-! ## Helper lemmas and sample data for the orchestrator claims -/

theorem upsertLaunches_ne_nil (now : Int) :
    ∀ (rs : List ApiLaunch) (store : List LaunchRecord), rs ≠ [] →
      upsertLaunches now rs store ≠ []
  | [], _, h => absurd rfl h
  | [l], store, _ => by
      have : upsertLaunches now [l] store =
          store.filter (fun r => decide (r.id ≠ l.id)) ++ [toRow now l] := rfl
      rw [this]
      simp
  | l :: l2 :: ls, store, _ => by
      have step : upsertLaunches now (l :: l2 :: ls) store =
          upsertLaunches now (l2 :: ls)
            (store.filter (fun r => decide (r.id ≠ l.id)) ++ [toRow now l]) := rfl
      rw [step]
      exact upsertLaunches_ne_nil now (l2 :: ls) _ (by simp)

theorem getCachedLaunches_length_pos (store : List LaunchRecord)
    (h : store ≠ []) :
    0 < (getCachedLaunches store MAX_API_LIMIT).length := by
  unfold getCachedLaunches
  rw [List.length_take, sortByKey_length]
  have h1 : 0 < store.length := List.length_pos.mpr h
  have h2 : (0 : Nat) < MAX_API_LIMIT := by decide
  omega

theorem getCachedLaunches_length_eq_zero (store : List LaunchRecord)
    (h : getCachedLaunches store MAX_API_LIMIT = []) :
    ¬ 0 < (getCachedLaunches store MAX_API_LIMIT).length := by
  rw [h]
  simp

/-- The `catch` block when the store still has rows: the stale page. -/
theorem staleFallback_of_ne_nil (st : DbState) (limit offset : Nat)
    (h : getCachedLaunches st.launches MAX_API_LIMIT ≠ []) :
    staleFallback st limit offset =
      (cachePageResp st.launches limit offset "stale_cache"
        (some "External API unavailable, returning stale cache data"), st) := by
  unfold staleFallback
  rw [if_pos (by
    have := List.length_pos.mpr h
    exact this)]

/-- The `catch` block when the store is empty: the terminal error. -/
theorem staleFallback_of_nil (st : DbState) (limit offset : Nat)
    (h : getCachedLaunches st.launches MAX_API_LIMIT = []) :
    staleFallback st limit offset =
      (ApiResponse.err "Failed to fetch launch data", st) := by
  unfold staleFallback
  rw [if_neg (getCachedLaunches_length_eq_zero _ h)]

/-- A sample upstream launch used to instantiate witnesses. -/
def apiL1 : ApiLaunch :=
  ⟨"launch-1", "Alpha", "2026-01-01T00:00:00Z", none, none, none, none,
    none, none, none⟩

/-- A second sample upstream launch. -/
def apiL2 : ApiLaunch :=
  ⟨"launch-2", "Beta", "2026-01-02T00:00:00Z", none, none, none, none,
    none, none, none⟩

/-- The empty database state. -/
def stEmpty : DbState := ⟨[], []⟩

/-- A state with one stored record and no cache metadata (so the cache
is invalid but the Record Store is non-empty). -/
def stOne : DbState := ⟨[toRow 0 apiL1], []⟩

/-- A state with one stored record and metadata valid until time 10. -/
def stHit : DbState := ⟨[toRow 0 apiL1], [⟨"upcoming_launches", 0, 10⟩]⟩

/-! ## Claim theorems: the cache-hit path (C5) -/

/-- C5: on a valid cache, `GET` reads at most the bounded maximum (100)
of records in ascending `net` order, windows them in-process, and
returns the windowed slice with `count` the size of the full unwindowed
read and provenance `cache`, leaving the state untouched. -/
theorem handleGET_hit_spec (st : DbState) (now : Int) (limit offset : Nat)
    (fetched : Option (List ApiLaunch)) (u m : Bool)
    (h : isCacheValid st.meta CACHE_KEY CACHE_TTL_MINUTES now = true) :
    handleGET st now limit offset fetched u m =
      (ApiResponse.ok (getCachedLaunches st.launches MAX_API_LIMIT).length
        (nextField limit offset
          (getCachedLaunches st.launches MAX_API_LIMIT).length)
        (prevField limit offset)
        (convertToApiFormat (sliceWindow offset limit
          (getCachedLaunches st.launches MAX_API_LIMIT)))
        true "cache" none, st)
    ∧ (getCachedLaunches st.launches MAX_API_LIMIT).length ≤ 100
    ∧ List.Pairwise (fun a b : LaunchRecord => a.net ≤ b.net)
        (getCachedLaunches st.launches MAX_API_LIMIT) := by
  refine ⟨?_, List.length_take_le _ _, ?_⟩
  · unfold handleGET
    rw [if_pos h]
    rfl
  · exact List.Pairwise.sublist (List.take_sublist _ _)
      (sortByKey_sorted (fun r : LaunchRecord => r.net) st.launches)

/-- C5 witness: the hit path evaluated on a concrete valid state. -/
theorem handleGET_hit_spec_witness :
    handleGET stHit 5 10 0 none false false =
      (ApiResponse.ok (getCachedLaunches stHit.launches MAX_API_LIMIT).length
        (nextField 10 0
          (getCachedLaunches stHit.launches MAX_API_LIMIT).length)
        (prevField 10 0)
        (convertToApiFormat (sliceWindow 0 10
          (getCachedLaunches stHit.launches MAX_API_LIMIT)))
        true "cache" none, stHit) :=
  (handleGET_hit_spec stHit 5 10 0 none false false (by decide)).1

/-! ## Claim theorems: the miss path with successful fetch (C2) -/

/-- C2: on an invalid cache with a successful fetch of a non-empty
batch, `GET` upserts the whole batch, overwrites the metadata row with
`last_updated = now` and `expires_at = now + TTL`, and returns the
freshly fetched batch itself windowed to `[offset, offset+limit)` with
`count` the full batch size and provenance `api`; an empty successful
batch writes neither store. -/
theorem handleGET_miss_fresh_spec (st : DbState) (now : Int)
    (limit offset : Nat) (rs : List ApiLaunch)
    (h : isCacheValid st.meta CACHE_KEY CACHE_TTL_MINUTES now = false) :
    (0 < rs.length →
      handleGET st now limit offset (some rs) false false =
        (ApiResponse.ok rs.length (nextField limit offset rs.length)
          (prevField limit offset) (sliceWindow offset limit rs)
          false "api" none,
         ⟨upsertLaunches now rs st.launches,
          updateCacheMetadata st.meta CACHE_KEY CACHE_TTL_MINUTES now⟩))
    ∧ (0 < rs.length →
        findMeta (handleGET st now limit offset (some rs) false false).2.meta
            CACHE_KEY =
          some ⟨CACHE_KEY, now, now + CACHE_TTL_MINUTES * 60 * 1000⟩)
    ∧ (rs.length = 0 →
        handleGET st now limit offset (some rs) false false =
          (ApiResponse.ok rs.length (nextField limit offset rs.length)
            (prevField limit offset) (sliceWindow offset limit rs)
            false "api" none, st)) := by
  have hni : ¬ isCacheValid st.meta CACHE_KEY CACHE_TTL_MINUTES now = true := by
    simp [h]
  have main : 0 < rs.length →
      handleGET st now limit offset (some rs) false false =
        (ApiResponse.ok rs.length (nextField limit offset rs.length)
          (prevField limit offset) (sliceWindow offset limit rs)
          false "api" none,
         ⟨upsertLaunches now rs st.launches,
          updateCacheMetadata st.meta CACHE_KEY CACHE_TTL_MINUTES now⟩) := by
    intro h1
    unfold handleGET
    rw [if_neg hni]
    show (if 0 < rs.length then _ else _) = _
    rw [if_pos h1]
    rfl
  refine ⟨main, ?_, ?_⟩
  · intro h1
    rw [main h1]
    exact findMeta_updateCacheMetadata st.meta CACHE_KEY CACHE_TTL_MINUTES now
  · intro h0
    unfold handleGET
    rw [if_neg hni]
    show (if 0 < rs.length then _ else _) = _
    rw [if_neg (by omega)]
    rfl

/-- C2 witness: the miss path evaluated with a concrete one-element
batch on the empty state. -/
theorem handleGET_miss_fresh_spec_witness :
    handleGET stEmpty 7 10 0 (some [apiL1]) false false =
      (ApiResponse.ok 1 (nextField 10 0 1)
        (prevField 10 0) (sliceWindow 0 10 [apiL1]) false "api" none,
       ⟨upsertLaunches 7 [apiL1] stEmpty.launches,
        updateCacheMetadata stEmpty.meta CACHE_KEY CACHE_TTL_MINUTES 7⟩) :=
  (handleGET_miss_fresh_spec stEmpty 7 10 0 [apiL1] (by decide)).1
    (by decide)

/-! ## Claim theorems: upstream/write failure and stale fallback (C3) -/

/-- C3: when the cache is invalid and the upstream fetch fails, or the
batch write fails, or the metadata write fails: with a non-empty Record
Store the response is `stale_cache` with `cached = true` and a non-empty
warning, its records read from storage exactly as on the hit path, and
the state (in particular the cache metadata) is not advanced; with an
empty Record Store the call ends in the terminal
`'Failed to fetch launch data'` error.  A batch-write failure behaves
exactly like an upstream fetch failure. -/
theorem handleGET_failure_spec (st : DbState) (now : Int)
    (limit offset : Nat) (u m : Bool) (rs : List ApiLaunch)
    (h : isCacheValid st.meta CACHE_KEY CACHE_TTL_MINUTES now = false) :
    (getCachedLaunches st.launches MAX_API_LIMIT ≠ [] →
      ∃ w, w ≠ "" ∧
        handleGET st now limit offset none u m =
          (ApiResponse.ok
            (getCachedLaunches st.launches MAX_API_LIMIT).length
            (nextField limit offset
              (getCachedLaunches st.launches MAX_API_LIMIT).length)
            (prevField limit offset)
            (convertToApiFormat (sliceWindow offset limit
              (getCachedLaunches st.launches MAX_API_LIMIT)))
            true "stale_cache" (some w), st))
    ∧ (getCachedLaunches st.launches MAX_API_LIMIT = [] →
        handleGET st now limit offset none u m =
          (ApiResponse.err "Failed to fetch launch data", st))
    ∧ (0 < rs.length →
        handleGET st now limit offset (some rs) true m =
          handleGET st now limit offset none u m)
    ∧ (0 < rs.length →
        (handleGET st now limit offset (some rs) false true).2.meta = st.meta
        ∧ ∃ w, w ≠ "" ∧
            (handleGET st now limit offset (some rs) false true).1 =
              ApiResponse.ok
                (getCachedLaunches (upsertLaunches now rs st.launches)
                  MAX_API_LIMIT).length
                (nextField limit offset
                  (getCachedLaunches (upsertLaunches now rs st.launches)
                    MAX_API_LIMIT).length)
                (prevField limit offset)
                (convertToApiFormat (sliceWindow offset limit
                  (getCachedLaunches (upsertLaunches now rs st.launches)
                    MAX_API_LIMIT)))
                true "stale_cache" (some w)) := by
  have hni : ¬ isCacheValid st.meta CACHE_KEY CACHE_TTL_MINUTES now = true := by
    simp [h]
  have hnone : handleGET st now limit offset none u m =
      staleFallback st limit offset := by
    unfold handleGET
    rw [if_neg hni]
  refine ⟨?_, ?_, ?_, ?_⟩
  · intro hne
    refine ⟨"External API unavailable, returning stale cache data",
      by decide, ?_⟩
    rw [hnone, staleFallback_of_ne_nil st limit offset hne]
    rfl
  · intro hnil
    rw [hnone, staleFallback_of_nil st limit offset hnil]
  · intro h1
    rw [hnone]
    unfold handleGET
    rw [if_neg hni]
    show (if 0 < rs.length then _ else _) = _
    rw [if_pos h1]
    rfl
  · intro h1
    have hmeta : handleGET st now limit offset (some rs) false true =
        staleFallback
          ⟨upsertLaunches now rs st.launches, st.meta⟩ limit offset := by
      unfold handleGET
      rw [if_neg hni]
      show (if 0 < rs.length then _ else _) = _
      rw [if_pos h1]
      rfl
    have hne : getCachedLaunches
        (DbState.launches ⟨upsertLaunches now rs st.launches, st.meta⟩)
        MAX_API_LIMIT ≠ [] := by
      show getCachedLaunches (upsertLaunches now rs st.launches)
        MAX_API_LIMIT ≠ []
      intro hc
      exact getCachedLaunches_length_eq_zero _ hc
        (getCachedLaunches_length_pos _
          (upsertLaunches_ne_nil now rs st.launches
            (by intro h0; rw [h0] at h1; simp at h1)))
    rw [hmeta, staleFallback_of_ne_nil _ limit offset hne]
    exact ⟨rfl,
      ⟨"External API unavailable, returning stale cache data",
        by decide, rfl⟩⟩

/-- C3 witness: upstream failure on a state with one stored record and
no valid metadata produces the stale page. -/
theorem handleGET_failure_spec_witness :
    ∃ w, w ≠ "" ∧
      handleGET stOne 3 10 0 none false false =
        (ApiResponse.ok
          (getCachedLaunches stOne.launches MAX_API_LIMIT).length
          (nextField 10 0
            (getCachedLaunches stOne.launches MAX_API_LIMIT).length)
          (prevField 10 0)
          (convertToApiFormat (sliceWindow 0 10
            (getCachedLaunches stOne.launches MAX_API_LIMIT)))
          true "stale_cache" (some w), stOne) :=
  (handleGET_failure_spec stOne 3 10 0 false false [] (by decide)).1
    (by decide)

/-! ## Claim theorems: the pagination contract (C7) -/

/-- The pagination contract on one response envelope: `next` is present
iff `offset + limit < count`, `previous` is present iff `offset > 0`,
and an offset at or past `count` yields an empty (but error-free)
result slice.  Error responses carry no pagination. -/
def paginationOK (limit offset : Nat) : ApiResponse → Prop
  | .ok count next previous results _ _ _ =>
      (next ≠ none ↔ offset + limit < count)
      ∧ (previous ≠ none ↔ 0 < offset)
      ∧ (count ≤ offset → results = [])
  | .err _ => True

/-- Whether a response is the 500 error shape. -/
def isErrResp : ApiResponse → Bool
  | .err _ => true
  | _ => false

theorem nextField_spec (limit offset totalCount : Nat) :
    nextField limit offset totalCount ≠ none ↔
      offset + limit < totalCount := by
  unfold nextField
  split <;> simp_all

theorem prevField_spec (limit offset : Nat) :
    prevField limit offset ≠ none ↔ 0 < offset := by
  unfold prevField
  split <;> simp_all

theorem sliceWindow_past_end {α : Type} (offset limit : Nat)
    (l : List α) (h : l.length ≤ offset) :
    sliceWindow offset limit l = [] := by
  unfold sliceWindow
  rw [List.drop_eq_nil_of_le h]
  exact List.take_nil

/-- The miss path of `GET` with a failed fetch, unfolded. -/
theorem handleGET_none_of_invalid (st : DbState) (now : Int)
    (limit offset : Nat) (u m : Bool)
    (hni : ¬ isCacheValid st.meta CACHE_KEY CACHE_TTL_MINUTES now = true) :
    handleGET st now limit offset none u m =
      staleFallback st limit offset := by
  unfold handleGET
  rw [if_neg hni]

/-- The miss path of `GET` with a successful fetch, unfolded. -/
theorem handleGET_some_of_invalid (st : DbState) (now : Int)
    (limit offset : Nat) (rs : List ApiLaunch) (u m : Bool)
    (hni : ¬ isCacheValid st.meta CACHE_KEY CACHE_TTL_MINUTES now = true) :
    handleGET st now limit offset (some rs) u m =
      (if 0 < rs.length then
        if u then staleFallback st limit offset
        else
          if m then
            staleFallback ⟨upsertLaunches now rs st.launches, st.meta⟩
              limit offset
          else
            (freshResp rs limit offset "api",
              ⟨upsertLaunches now rs st.launches,
               updateCacheMetadata st.meta CACHE_KEY CACHE_TTL_MINUTES now⟩)
      else (freshResp rs limit offset "api", st)) := by
  unfold handleGET
  rw [if_neg hni]

theorem paginationOK_cachePageResp (store : List LaunchRecord)
    (limit offset : Nat) (source : String) (warning : Option String) :
    paginationOK limit offset
      (cachePageResp store limit offset source warning) := by
  refine ⟨nextField_spec _ _ _, prevField_spec _ _, ?_⟩
  intro hle
  show convertToApiFormat (sliceWindow offset limit
    (getCachedLaunches store MAX_API_LIMIT)) = []
  rw [sliceWindow_past_end offset limit _ hle]
  rfl

theorem paginationOK_freshResp (results : List ApiLaunch)
    (limit offset : Nat) (source : String) :
    paginationOK limit offset (freshResp results limit offset source) := by
  refine ⟨nextField_spec _ _ _, prevField_spec _ _, ?_⟩
  intro hle
  exact sliceWindow_past_end offset limit results hle

theorem paginationOK_staleFallback (st : DbState) (limit offset : Nat) :
    paginationOK limit offset (staleFallback st limit offset).1 := by
  by_cases hc : getCachedLaunches st.launches MAX_API_LIMIT = []
  · rw [staleFallback_of_nil st limit offset hc]
    trivial
  · rw [staleFallback_of_ne_nil st limit offset hc]
    exact paginationOK_cachePageResp _ _ _ _ _

theorem staleFallback_snd (st : DbState) (limit offset : Nat) :
    (staleFallback st limit offset).2 = st := by
  by_cases hc : getCachedLaunches st.launches MAX_API_LIMIT = []
  · rw [staleFallback_of_nil st limit offset hc]
  · rw [staleFallback_of_ne_nil st limit offset hc]

theorem isErrResp_staleFallback_offset (st : DbState)
    (limit o1 o2 : Nat) :
    isErrResp (staleFallback st limit o1).1 =
      isErrResp (staleFallback st limit o2).1 := by
  by_cases hc : getCachedLaunches st.launches MAX_API_LIMIT = []
  · rw [staleFallback_of_nil st limit o1 hc,
      staleFallback_of_nil st limit o2 hc]
  · rw [staleFallback_of_ne_nil st limit o1 hc,
      staleFallback_of_ne_nil st limit o2 hc]
    rfl

/-- C7: on every path of `GET`, `hasNext` (a non-null `next` URL) holds
iff `offset + limit < count`, `hasPrevious` holds iff `offset > 0`, an
offset at or past the available records yields an empty result slice,
and whether the call errs does not depend on the offset. -/
theorem handleGET_pagination_spec (st : DbState) (now : Int)
    (limit offset : Nat) (fetched : Option (List ApiLaunch)) (u m : Bool) :
    paginationOK limit offset (handleGET st now limit offset fetched u m).1
    ∧ ∀ offset2 : Nat,
        isErrResp (handleGET st now limit offset fetched u m).1 =
          isErrResp (handleGET st now limit offset2 fetched u m).1 := by
  by_cases hv : isCacheValid st.meta CACHE_KEY CACHE_TTL_MINUTES now = true
  · constructor
    · unfold handleGET
      rw [if_pos hv]
      exact paginationOK_cachePageResp _ _ _ _ _
    · intro offset2
      unfold handleGET
      rw [if_pos hv, if_pos hv]
      rfl
  · cases fetched with
    | none =>
        constructor
        · rw [handleGET_none_of_invalid st now limit offset u m hv]
          exact paginationOK_staleFallback _ _ _
        · intro offset2
          rw [handleGET_none_of_invalid st now limit offset u m hv,
            handleGET_none_of_invalid st now limit offset2 u m hv]
          exact isErrResp_staleFallback_offset st limit offset offset2
    | some rs =>
        rw [handleGET_some_of_invalid st now limit offset rs u m hv]
        constructor
        · by_cases h1 : 0 < rs.length
          · rw [if_pos h1]
            cases u
            · cases m
              · exact paginationOK_freshResp _ _ _ _
              · exact paginationOK_staleFallback _ _ _
            · exact paginationOK_staleFallback _ _ _
          · rw [if_neg h1]
            exact paginationOK_freshResp _ _ _ _
        · intro offset2
          rw [handleGET_some_of_invalid st now limit offset2 rs u m hv]
          by_cases h1 : 0 < rs.length
          · rw [if_pos h1, if_pos h1]
            cases u
            · cases m
              · rfl
              · exact isErrResp_staleFallback_offset _ limit offset offset2
            · exact isErrResp_staleFallback_offset st limit offset offset2
          · rw [if_neg h1, if_neg h1]
            rfl

/-- C7 witness: the pagination contract evaluated on a concrete hit-path
call whose offset (7) exceeds the single available record. -/
theorem handleGET_pagination_spec_witness :
    paginationOK 5 7 (handleGET stHit 5 5 7 none false false).1
    ∧ ∀ offset2 : Nat,
        isErrResp (handleGET stHit 5 5 7 none false false).1 =
          isErrResp (handleGET stHit 5 5 offset2 none false false).1 :=
  handleGET_pagination_spec stHit 5 5 7 none false false

/-! ## Claim theorems: the forced-refresh endpoint (C4) -/

/-- C4 counterexample: with one stored record, no cache metadata and a
failing upstream fetch, `GET` serves the stale page while `POST` returns
the terminal 500 error — the forced refresh does not share the miss
path's stale-storage fallback. -/
theorem handlePOST_stale_fallback_counterexample :
    handlePOST stOne 0 10 0 none false false =
      (ApiResponse.err "Failed to refresh cache", stOne)
    ∧ (handleGET stOne 0 10 0 none false false).1 =
        ApiResponse.ok 1 none none (convertToApiFormat [toRow 0 apiL1])
          true "stale_cache"
          (some "External API unavailable, returning stale cache data")
    ∧ (handleGET stOne 0 10 0 none false false).1 ≠
        (handlePOST stOne 0 10 0 none false false).1 := by
  refine ⟨rfl, rfl, ?_⟩
  intro hc
  exact ApiResponse.noConfusion hc

/-- C4 amended: `POST` always calls upstream without consulting cache
validity (its response does not depend on the metadata store), and on
upstream success its handling is identical to the miss path's — batch
upsert, metadata overwrite, fresh batch windowed with `count` the batch
size — except that provenance is `manual_refresh` instead of `api`; on
upstream failure, however, `POST` returns the terminal
`'Failed to refresh cache'` error without falling back to a stale
storage read. -/
theorem handlePOST_spec (st : DbState) (now : Int) (limit offset : Nat)
    (rs : List ApiLaunch) (u m : Bool) :
    (handlePOST st now limit offset none u m =
      (ApiResponse.err "Failed to refresh cache", st))
    ∧ (0 < rs.length →
        handlePOST st now limit offset (some rs) false false =
          (ApiResponse.ok rs.length (nextField limit offset rs.length)
            (prevField limit offset) (sliceWindow offset limit rs)
            false "manual_refresh" none,
           ⟨upsertLaunches now rs st.launches,
            updateCacheMetadata st.meta CACHE_KEY CACHE_TTL_MINUTES now⟩))
    ∧ (rs.length = 0 →
        handlePOST st now limit offset (some rs) u m =
          (ApiResponse.ok rs.length (nextField limit offset rs.length)
            (prevField limit offset) (sliceWindow offset limit rs)
            false "manual_refresh" none, st))
    ∧ (∀ meta2 : MetaStore,
        (handlePOST ⟨st.launches, meta2⟩ now limit offset (some rs)
            false false).1 =
          (handlePOST st now limit offset (some rs) false false).1)
    ∧ (0 < rs.length →
        isCacheValid st.meta CACHE_KEY CACHE_TTL_MINUTES now = false →
        (handleGET st now limit offset (some rs) false false).2 =
            (handlePOST st now limit offset (some rs) false false).2
        ∧ (handleGET st now limit offset (some rs) false false).1 =
            ApiResponse.ok rs.length (nextField limit offset rs.length)
              (prevField limit offset) (sliceWindow offset limit rs)
              false "api" none) := by
  have post_pos : ∀ (st2 : DbState), 0 < rs.length →
      handlePOST st2 now limit offset (some rs) false false =
        (ApiResponse.ok rs.length (nextField limit offset rs.length)
          (prevField limit offset) (sliceWindow offset limit rs)
          false "manual_refresh" none,
         ⟨upsertLaunches now rs st2.launches,
          updateCacheMetadata st2.meta CACHE_KEY CACHE_TTL_MINUTES now⟩) := by
    intro st2 h1
    show (if 0 < rs.length then _ else _) = _
    rw [if_pos h1]
    rfl
  have post_zero : ∀ (st2 : DbState) (u2 m2 : Bool), rs.length = 0 →
      handlePOST st2 now limit offset (some rs) u2 m2 =
        (ApiResponse.ok rs.length (nextField limit offset rs.length)
          (prevField limit offset) (sliceWindow offset limit rs)
          false "manual_refresh" none, st2) := by
    intro st2 u2 m2 h0
    show (if 0 < rs.length then _ else _) = _
    rw [if_neg (by omega)]
    rfl
  refine ⟨rfl, ?_, ?_, ?_, ?_⟩
  · intro h1
    exact post_pos st h1
  · intro h0
    exact post_zero st u m h0
  · intro meta2
    by_cases h1 : 0 < rs.length
    · rw [post_pos ⟨st.launches, meta2⟩ h1, post_pos st h1]
    · rw [post_zero ⟨st.launches, meta2⟩ false false (by omega),
        post_zero st false false (by omega)]
  · intro h1 hinv
    have hni : ¬ isCacheValid st.meta CACHE_KEY CACHE_TTL_MINUTES now
        = true := by simp [hinv]
    rw [handleGET_some_of_invalid st now limit offset rs false false hni,
      if_pos h1, post_pos st h1]
    exact ⟨rfl, rfl⟩

/-- C4 witness: the forced refresh evaluated on a concrete fresh state
(valid metadata) still hits upstream and rewrites both stores. -/
theorem handlePOST_spec_witness :
    handlePOST stHit 5 10 0 (some [apiL2]) false false =
      (ApiResponse.ok 1 (nextField 10 0 1) (prevField 10 0)
        (sliceWindow 0 10 [apiL2]) false "manual_refresh" none,
       ⟨upsertLaunches 5 [apiL2] stHit.launches,
        updateCacheMetadata stHit.meta CACHE_KEY CACHE_TTL_MINUTES 5⟩) :=
  (handlePOST_spec stHit 5 10 0 [apiL2] false false).2.1 (by decide)

/-! ## Claim theorems: write-through pairing of the two stores (C6) -/

/-- C6 counterexample: a metadata-write failure after the batch
transaction committed leaves the freshly fetched record durably written
while the metadata store was never advanced — the two writes are not
atomic as a pair. -/
theorem writeThrough_atomic_counterexample :
    (handleGET stEmpty 0 10 0 (some [apiL1]) false true).2.launches =
      [toRow 0 apiL1]
    ∧ (handleGET stEmpty 0 10 0 (some [apiL1]) false true).2.meta = []
    ∧ findMeta
        (handleGET stEmpty 0 10 0 (some [apiL1]) false true).2.meta
        CACHE_KEY = none :=
  ⟨rfl, rfl, rfl⟩

/-- C6 amended: on a fully successful refresh both stores are written;
the batch upsert is atomic as a unit, and a failed batch upsert leaves
both stores untouched (so records are never missing while metadata
advanced); but the record upsert and the metadata overwrite run in
separate transactions, and a metadata-write failure after a successful
upsert leaves the new records written with the metadata not advanced. -/
theorem writeThrough_pair_spec (st : DbState) (now : Int)
    (limit offset : Nat) (rs : List ApiLaunch) (m2 : Bool)
    (h : isCacheValid st.meta CACHE_KEY CACHE_TTL_MINUTES now = false)
    (h1 : 0 < rs.length) :
    (handleGET st now limit offset (some rs) false false).2 =
      ⟨upsertLaunches now rs st.launches,
       updateCacheMetadata st.meta CACHE_KEY CACHE_TTL_MINUTES now⟩
    ∧ (handleGET st now limit offset (some rs) true m2).2 = st
    ∧ (handleGET st now limit offset (some rs) false true).2 =
        ⟨upsertLaunches now rs st.launches, st.meta⟩ := by
  have hni : ¬ isCacheValid st.meta CACHE_KEY CACHE_TTL_MINUTES now
      = true := by simp [h]
  refine ⟨?_, ?_, ?_⟩
  · rw [handleGET_some_of_invalid st now limit offset rs false false hni,
      if_pos h1]
    rfl
  · rw [handleGET_some_of_invalid st now limit offset rs true m2 hni,
      if_pos h1]
    show (staleFallback st limit offset).2 = st
    exact staleFallback_snd st limit offset
  · rw [handleGET_some_of_invalid st now limit offset rs false true hni,
      if_pos h1]
    show (staleFallback
      ⟨upsertLaunches now rs st.launches, st.meta⟩ limit offset).2 = _
    exact staleFallback_snd _ limit offset

/-- C6 witness: the three write outcomes evaluated on the empty state
with a singleton batch. -/
theorem writeThrough_pair_spec_witness :
    (handleGET stEmpty 4 10 0 (some [apiL1]) false false).2 =
      ⟨upsertLaunches 4 [apiL1] stEmpty.launches,
       updateCacheMetadata stEmpty.meta CACHE_KEY CACHE_TTL_MINUTES 4⟩
    ∧ (handleGET stEmpty 4 10 0 (some [apiL1]) true false).2 = stEmpty
    ∧ (handleGET stEmpty 4 10 0 (some [apiL1]) false true).2 =
        ⟨upsertLaunches 4 [apiL1] stEmpty.launches, stEmpty.meta⟩ :=
  writeThrough_pair_spec stEmpty 4 10 0 [apiL1] false (by decide)
    (by decide)

/-! ## Lemmas about the histogram buckets (for C10) -/

theorem bucketStarts_eq (cur last : Int) :
    bucketStarts cur last =
      if cur ≤ last then cur :: bucketStarts (cur + WEEK_MS) last
      else [] := by
  rw [bucketStarts]

theorem mem_bucketStarts_le (cur last s : Int)
    (hs : s ∈ bucketStarts cur last) : cur ≤ s := by
  rw [bucketStarts_eq] at hs
  by_cases hc : cur ≤ last
  · rw [if_pos hc] at hs
    rcases List.mem_cons.mp hs with rfl | hs
    · exact le_refl s
    · have hrec := mem_bucketStarts_le (cur + WEEK_MS) last s hs
      have hW : (0 : Int) < WEEK_MS := by decide
      omega
  · rw [if_neg hc] at hs
    simp at hs
termination_by (last + WEEK_MS - cur).toNat
decreasing_by
  have hW : (0 : Int) < WEEK_MS := by decide
  omega

theorem countP_bucketStarts_lt (cur last t : Int) (h : t < cur) :
    (bucketStarts cur last).countP
      (fun s => decide (s ≤ t) && decide (t < s + WEEK_MS)) = 0 := by
  rw [List.countP_eq_zero]
  intro s hs
  have hcs := mem_bucketStarts_le cur last s hs
  simp only [Bool.and_eq_true, decide_eq_true_eq, not_and]
  intro hle
  omega

theorem countP_bucketStarts_one (cur last t : Int) (h1 : cur ≤ t)
    (h2 : t ≤ last) :
    (bucketStarts cur last).countP
      (fun s => decide (s ≤ t) && decide (t < s + WEEK_MS)) = 1 := by
  rw [bucketStarts_eq, if_pos (le_trans h1 h2), List.countP_cons]
  by_cases hlt : t < cur + WEEK_MS
  · rw [countP_bucketStarts_lt (cur + WEEK_MS) last t hlt]
    simp [h1, hlt]
  · rw [countP_bucketStarts_one (cur + WEEK_MS) last t (by omega) h2]
    simp [hlt]
termination_by (last + WEEK_MS - cur).toNat
decreasing_by
  have hW : (0 : Int) < WEEK_MS := by decide
  omega

theorem chain'_bucketStarts (cur last : Int) :
    List.Chain' (fun a b => b = a + WEEK_MS) (bucketStarts cur last) := by
  rw [bucketStarts_eq]
  by_cases hc : cur ≤ last
  · rw [if_pos hc]
    have ih := chain'_bucketStarts (cur + WEEK_MS) last
    cases hb : bucketStarts (cur + WEEK_MS) last with
    | nil => simp
    | cons b bs =>
        have hhead : b = cur + WEEK_MS := by
          rw [bucketStarts_eq] at hb
          by_cases hc2 : cur + WEEK_MS ≤ last
          · rw [if_pos hc2] at hb
            exact (List.cons_eq_cons.mp hb).1.symm
          · rw [if_neg hc2] at hb
            exact absurd hb (by simp)
        rw [hb] at ih
        exact List.Chain'.cons hhead ih
  · rw [if_neg hc]
    exact List.chain'_nil
termination_by (last + WEEK_MS - cur).toNat
decreasing_by
  have hW : (0 : Int) < WEEK_MS := by decide
  omega

theorem flatten_map_nil {α β : Type} (starts : List β) :
    (starts.map (fun _ => ([] : List α))).flatten = [] := by
  induction starts with
  | nil => rfl
  | cons s rest ih => simp [ih]

theorem flatten_filter_cons_perm {α β : Type} (p : β → α → Bool)
    (x : α) (xs : List α) :
    ∀ starts : List β, starts.countP (fun s => p s x) = 1 →
      List.Perm ((starts.map (fun s => (x :: xs).filter (p s))).flatten)
        (x :: (starts.map (fun s => xs.filter (p s))).flatten)
  | [], h => by simp at h
  | s :: rest, h => by
      rw [List.countP_cons] at h
      by_cases hx : p s x = true
      · have hrest : rest.countP (fun s => p s x) = 0 := by
          rw [hx] at h
          simpa using h
        have hmap : rest.map (fun s => (x :: xs).filter (p s)) =
            rest.map (fun s => xs.filter (p s)) := by
          apply List.map_congr_left
          intro s2 hs2
          have hs2x : p s2 x = false := by
            have := List.countP_eq_zero.mp hrest s2 hs2
            simpa using this
          rw [List.filter_cons, hs2x]
          rfl
        simp only [List.map_cons, List.flatten_cons]
        rw [List.filter_cons, hx, hmap]
        exact List.Perm.refl _
      · have hx' : p s x = false := by
          cases hp : p s x
          · rfl
          · exact absurd hp hx
        have hrest : rest.countP (fun s => p s x) = 1 := by
          rw [hx'] at h
          simpa using h
        have ih := flatten_filter_cons_perm p x xs rest hrest
        simp only [List.map_cons, List.flatten_cons]
        rw [List.filter_cons, hx']
        exact ((List.Perm.append_left (xs.filter (p s)) ih).trans
          List.perm_middle)

theorem flatten_filter_perm {α β : Type} (p : β → α → Bool) :
    ∀ (l : List α) (starts : List β),
      (∀ x ∈ l, starts.countP (fun s => p s x) = 1) →
      List.Perm ((starts.map (fun s => l.filter (p s))).flatten) l
  | [], starts, _ => by
      have : starts.map (fun s => List.filter (p s) ([] : List α)) =
          starts.map (fun _ => ([] : List α)) := by
        simp
      rw [this, flatten_map_nil]
  | x :: xs, starts, hc => by
      have h1 := flatten_filter_cons_perm p x xs starts (hc x (by simp))
      have h2 := flatten_filter_perm p xs starts
        (fun y hy => hc y (List.mem_cons_of_mem x hy))
      exact h1.trans (h2.cons x)

theorem flatten_map_map {α β γ : Type} (starts : List β)
    (g : β → List α) (f : α → γ) :
    (starts.map (fun s => (g s).map f)).flatten =
      ((starts.map g).flatten).map f := by
  induction starts with
  | nil => rfl
  | cons s rest ih => simp [ih]

/-- The structural properties of the histogram bucketing over any
non-empty launch list: buckets are consecutive 7-day half-open windows
starting at the earliest parsed timestamp, each bucket's count is the
length of its member list, and the member lists partition the launches
(each launch falls in exactly one bucket). -/
theorem histogramBuckets_spec (toTime : String → Int)
    (L : List ApiLaunch) (hne : L ≠ []) :
    (∀ b ∈ histogramBuckets toTime L,
      b.endDate = b.startDate + WEEK_MS ∧ b.count = b.launchIds.length)
    ∧ List.Chain' (fun a b => b.startDate = a.startDate + WEEK_MS)
        (histogramBuckets toTime L)
    ∧ (∃ b0 bs, histogramBuckets toTime L = b0 :: bs
        ∧ b0.startDate ∈ L.map (fun l => toTime l.net)
        ∧ ∀ l ∈ L, b0.startDate ≤ toTime l.net)
    ∧ List.Perm
        (((histogramBuckets toTime L).map (·.launchIds)).flatten)
        (L.map (·.id))
    ∧ ((histogramBuckets toTime L).map (·.count)).sum = L.length := by
  cases hs : sortByKey (fun l : ApiLaunch => toTime l.net) L with
  | nil =>
      have hnil : L = [] :=
        ((hs ▸ sortByKey_perm (fun l : ApiLaunch => toTime l.net) L :
          List.Perm [] L).symm).eq_nil
      exact absurd hnil hne
  | cons x xs =>
      have hsperm : List.Perm (x :: xs) L :=
        hs ▸ sortByKey_perm (fun l : ApiLaunch => toTime l.net) L
      have hpair : List.Pairwise
          (fun a b => toTime a.net ≤ toTime b.net) (x :: xs) :=
        hs ▸ sortByKey_sorted (fun l : ApiLaunch => toTime l.net) L
      have hB : histogramBuckets toTime L =
          (bucketStarts (toTime x.net)
            (toTime ((x :: xs).getLast (by simp)).net)).map (fun s =>
              ⟨s, s + WEEK_MS,
                ((x :: xs).filter (fun l =>
                  decide (s ≤ toTime l.net) &&
                    decide (toTime l.net < s + WEEK_MS))).length,
                ((x :: xs).filter (fun l =>
                  decide (s ≤ toTime l.net) &&
                    decide (toTime l.net < s + WEEK_MS))).map (·.id)⟩) := by
        unfold histogramBuckets
        rw [hs]
      have hfirst : ∀ l ∈ x :: xs, toTime x.net ≤ toTime l.net :=
        sorted_head_le hpair
      have hlast : ∀ l ∈ x :: xs,
          toTime l.net ≤ toTime ((x :: xs).getLast (by simp)).net :=
        sorted_le_getLast (x :: xs) (by simp) hpair
      have hcount : ∀ l ∈ x :: xs,
          (bucketStarts (toTime x.net)
            (toTime ((x :: xs).getLast (by simp)).net)).countP
              (fun s => decide (s ≤ toTime l.net) &&
                decide (toTime l.net < s + WEEK_MS)) = 1 :=
        fun l hl => countP_bucketStarts_one _ _ _ (hfirst l hl) (hlast l hl)
      have hperm : List.Perm
          ((( bucketStarts (toTime x.net)
              (toTime ((x :: xs).getLast (by simp)).net)).map
            (fun s => (x :: xs).filter (fun l =>
              decide (s ≤ toTime l.net) &&
                decide (toTime l.net < s + WEEK_MS)))).flatten)
          (x :: xs) :=
        flatten_filter_perm
          (fun s l => decide (s ≤ toTime l.net) &&
            decide (toTime l.net < s + WEEK_MS)) (x :: xs) _ hcount
      refine ⟨?_, ?_, ?_, ?_, ?_⟩
      · intro b hb
        rw [hB] at hb
        rcases List.mem_map.mp hb with ⟨s, _, rfl⟩
        exact ⟨rfl, by simp⟩
      · rw [hB]
        exact (List.chain'_map _).mpr (chain'_bucketStarts _ _)
      · rw [hB]
        have hle : toTime x.net ≤
            toTime ((x :: xs).getLast (by simp)).net :=
          hlast x (by simp)
        rw [bucketStarts_eq, if_pos hle]
        refine ⟨_, _, rfl, ?_, ?_⟩
        · exact List.mem_map.mpr ⟨x, hsperm.mem_iff.mp (by simp), rfl⟩
        · intro l hl
          exact hfirst l (hsperm.mem_iff.mpr hl)
      · rw [hB, List.map_map]
        have hmm := flatten_map_map
          (bucketStarts (toTime x.net)
            (toTime ((x :: xs).getLast (by simp)).net))
          (fun s => (x :: xs).filter (fun l =>
            decide (s ≤ toTime l.net) &&
              decide (toTime l.net < s + WEEK_MS)))
          (fun l : ApiLaunch => l.id)
        refine List.Perm.trans ?_ (hsperm.map (·.id))
        rw [show ((fun b : HistogramBucket => b.launchIds) ∘ (fun s =>
          (⟨s, s + WEEK_MS,
            ((x :: xs).filter (fun l =>
              decide (s ≤ toTime l.net) &&
                decide (toTime l.net < s + WEEK_MS))).length,
            ((x :: xs).filter (fun l =>
              decide (s ≤ toTime l.net) &&
                decide (toTime l.net < s + WEEK_MS))).map (·.id)⟩ :
              HistogramBucket))) = fun s =>
          ((x :: xs).filter (fun l =>
            decide (s ≤ toTime l.net) &&
              decide (toTime l.net < s + WEEK_MS))).map (·.id) from rfl]
        rw [hmm]
        exact hperm.map (·.id)
      · rw [hB, List.map_map]
        have hlen : ((bucketStarts (toTime x.net)
            (toTime ((x :: xs).getLast (by simp)).net)).map
              (fun s => (x :: xs).filter (fun l =>
                decide (s ≤ toTime l.net) &&
                  decide (toTime l.net < s + WEEK_MS)))).flatten.length =
            (x :: xs).length := hperm.length_eq
        rw [List.length_flatten, List.map_map] at hlen
        rw [show ((fun b : HistogramBucket => b.count) ∘ (fun s =>
          (⟨s, s + WEEK_MS,
            ((x :: xs).filter (fun l =>
              decide (s ≤ toTime l.net) &&
                decide (toTime l.net < s + WEEK_MS))).length,
            ((x :: xs).filter (fun l =>
              decide (s ≤ toTime l.net) &&
                decide (toTime l.net < s + WEEK_MS))).map (·.id)⟩ :
              HistogramBucket))) = fun s =>
          ((x :: xs).filter (fun l =>
            decide (s ≤ toTime l.net) &&
              decide (toTime l.net < s + WEEK_MS))).length from rfl]
        rw [show (List.length ∘ (fun s => (x :: xs).filter (fun l =>
          decide (s ≤ toTime l.net) &&
            decide (toTime l.net < s + WEEK_MS)))) = fun s =>
          ((x :: xs).filter (fun l =>
            decide (s ≤ toTime l.net) &&
              decide (toTime l.net < s + WEEK_MS))).length from rfl]
          at hlen
        rw [hlen, hsperm.length_eq]

/-! ## Claim theorems: the histogram endpoint (C10) -/

/-- C10: for a non-empty cached record set (with `new Date` parsing
modelled by `toTime`), the histogram's buckets are consecutive 7-day
half-open windows `[start, start + 7d)` beginning at the earliest
record's `net` timestamp, each bucket's `count` equals the length of its
member list, the member lists partition the records (each record falls
in exactly one bucket, stated as a permutation of the full id
multiset), and the bucket counts sum to `total_launches`. -/
theorem histogramGET_partition_spec (toTime : String → Int)
    (st : DbState)
    (hne : convertToApiFormat (getCachedLaunches st.launches 100) ≠ []) :
    (∀ b ∈ (histogramGET toTime st).1,
      b.endDate = b.startDate + WEEK_MS ∧ b.count = b.launchIds.length)
    ∧ List.Chain' (fun a b => b.startDate = a.startDate + WEEK_MS)
        (histogramGET toTime st).1
    ∧ (∃ b0 bs, (histogramGET toTime st).1 = b0 :: bs
        ∧ b0.startDate ∈
            (convertToApiFormat (getCachedLaunches st.launches 100)).map
              (fun l => toTime l.net)
        ∧ ∀ l ∈ convertToApiFormat (getCachedLaunches st.launches 100),
            b0.startDate ≤ toTime l.net)
    ∧ List.Perm
        (((histogramGET toTime st).1.map (·.launchIds)).flatten)
        ((convertToApiFormat (getCachedLaunches st.launches 100)).map
          (·.id))
    ∧ ((histogramGET toTime st).1.map (·.count)).sum =
        (histogramGET toTime st).2 :=
  histogramBuckets_spec toTime
    (convertToApiFormat (getCachedLaunches st.launches 100)) hne

/-- C10 witness: the partition and count-sum facts evaluated on a
one-record store with a constant parse function. -/
theorem histogramGET_partition_spec_witness :
    List.Perm
      (((histogramGET (fun _ => (0 : Int)) stOne).1.map
        (·.launchIds)).flatten)
      ((convertToApiFormat (getCachedLaunches stOne.launches 100)).map
        (·.id))
    ∧ ((histogramGET (fun _ => (0 : Int)) stOne).1.map (·.count)).sum =
        (histogramGET (fun _ => (0 : Int)) stOne).2 :=
  ⟨(histogramGET_partition_spec (fun _ => 0) stOne (by decide)).2.2.2.1,
   (histogramGET_partition_spec (fun _ => 0) stOne (by decide)).2.2.2.2⟩

end ClearPath
